import Mathlib

/-!
Verification of the ingestion core of the `marie_rag_indexing` repository.

The development shallowly embeds the Python sources
`backend/app/application/services/{chunking,embeddings,orchestrator}.py`,
their duplicated legacy variants `backend/app/core/{chunking,orchestrator}.py`,
and the domain models of `backend/app/domain/models.py` as pure Lean
functions.  Collaborator behaviour (the document source, the remote
embedding endpoint, the vector-store sink) is passed in as explicit data,
and every Python exception that the code can observe is represented by an
`Except` value, so that raising, catching and propagating are visible in
the model.
-/

namespace RagIndexing

/-! ## Python dictionaries (document / chunk metadata)

Metadata dictionaries `dict[str, Any]` are modelled as insertion-ordered
association lists.  Values are either Python ints (used for the
`chunk_index` field the chunking engine adds) or opaque values of a
parameter type `V`. -/

inductive PyVal (V : Type) where
  | intV : Nat → PyVal V
  | other : V → PyVal V
deriving DecidableEq, Repr

/-- An insertion-ordered Python dictionary with string keys. -/
abbrev Meta (V : Type) : Type := List (String × PyVal V)

/-- Python `d[k] = v`: overwrite in place when the key is present,
append at the end otherwise. -/
def dictSet {V : Type} : Meta V → String → PyVal V → Meta V
  | [], k, v => [(k, v)]
  | (k', v') :: rest, k, v =>
      if k' = k then (k, v) :: rest else (k', v') :: dictSet rest k v

/-- Python `d.get(k)` on the association-list model. -/
def dictGet? {V : Type} : Meta V → String → Option (PyVal V)
  | [], _ => none
  | (k', v) :: rest, k => if k' = k then some v else dictGet? rest k

/-! ## Domain models (`backend/app/domain/models.py`) -/

/-- `Document(BaseModel)`: one unit of source content plus metadata. -/
structure Document (V : Type) where
  content : String
  metadata : Meta V
  source_id : String
deriving DecidableEq, Repr

/-- `Chunk(BaseModel)`: one embedded, indexable segment of a document.
Embedding components are drawn from a parameter type `α` (the code uses
Python floats; no claim performs arithmetic on them). -/
structure Chunk (V α : Type) where
  content : String
  metadata : Meta V
  embedding : List α
  source_id : String
  chunk_id : String
deriving DecidableEq, Repr

/-! ## Chunking (`backend/app/application/services/chunking.py`) -/

/-- `ChunkConfig(BaseModel)` with the source's defaults.  Fields are
Python ints, hence `Int`. -/
structure ChunkConfig where
  strategy : String := "recursive"
  chunk_size : Int := 1000
  chunk_overlap : Int := 200
  separators : Option (List String) := none
  encoding_name : String := "cl100k_base"
deriving DecidableEq, Repr

/-- The splitter object `_get_splitter` constructs, identified by the
langchain class and the constructor arguments the source passes.
`recursiveCharacter` with `separators = none` is
`RecursiveCharacterTextSplitter` built without a `separators` keyword
(library default separators). -/
inductive Splitter where
  | recursiveCharacter (chunk_size chunk_overlap : Int)
      (separators : Option (List String))
  | character (chunk_size chunk_overlap : Int) (separator : String)
  | token (chunk_size chunk_overlap : Int) (encoding_name : String)
deriving DecidableEq, Repr

/-- `chunk_size` argument of the constructed splitter. -/
def Splitter.size : Splitter → Int
  | .recursiveCharacter s _ _ => s
  | .character s _ _ => s
  | .token s _ _ => s

/-- `chunk_overlap` argument of the constructed splitter. -/
def Splitter.overlap : Splitter → Int
  | .recursiveCharacter _ o _ => o
  | .character _ o _ => o
  | .token _ o _ => o

/-- Python `str.replace` on character lists: replaces the leftmost
non-overlapping occurrences of `pat` by `rep`, scanning left to right.
Each step consumes at least one character, so fuel equal to the input
length suffices (the call sites below always pass non-empty patterns). -/
def replaceCharsAux (pat rep : List Char) : Nat → List Char → List Char
  | 0, s => s
  | _, [] => []
  | fuel + 1, c :: rest =>
      if pat.isPrefixOf (c :: rest) then
        rep ++ replaceCharsAux pat rep fuel ((c :: rest).drop pat.length)
      else
        c :: replaceCharsAux pat rep fuel rest

/-- Python `s.replace(pat, rep)`. -/
def pyReplace (s pat rep : String) : String :=
  String.mk (replaceCharsAux pat.data rep.data s.data.length s.data)

/-- `s.replace("\\n", "\n").replace("\\t", "\t").replace("\\r", "\r")`
from `_get_splitter`. -/
def unescapeSep (s : String) : String :=
  pyReplace (pyReplace (pyReplace s "\\n" "\n") "\\t" "\t") "\\r" "\r"

/-- Python truthiness of the `separators` value (`None` and `[]` are
falsy, a non-empty list is truthy). -/
def sepsTruthy : Option (List String) → Bool
  | some (_ :: _) => true
  | _ => false

/-- Constructor guard of the langchain `TextSplitter` base class
(`langchain_text_splitters/base.py`), which all three splitter classes
used by `_get_splitter` inherit: it raises `ValueError` exactly when
`chunk_overlap > chunk_size`.  This third-party dependency is not part of
the repository tree; it is modelled here because `ChunkingEngine`
delegates all config validation to it. -/
def textSplitterNew (chunk_size chunk_overlap : Int) (s : Splitter) :
    Except String Splitter :=
  if chunk_overlap > chunk_size then
    .error "Got a larger chunk overlap than chunk size, should be smaller."
  else
    .ok s

/-- `ChunkingEngine._get_splitter`.  An `Except.error` is an exception
raised out of the splitter constructor (and hence out of
`ChunkingEngine.__init__`, which calls `_get_splitter`). -/
def getSplitter (config : ChunkConfig) : Except String Splitter :=
  let separators : Option (List String) :=
    if sepsTruthy config.separators then
      config.separators.map (List.map unescapeSep)
    else
      config.separators
  if config.strategy = "recursive" then
    textSplitterNew config.chunk_size config.chunk_overlap
      (.recursiveCharacter config.chunk_size config.chunk_overlap
        (if sepsTruthy separators then separators else none))
  else if config.strategy = "character" then
    textSplitterNew config.chunk_size config.chunk_overlap
      (.character config.chunk_size config.chunk_overlap
        (match separators with
          | some (s :: _) => s
          | _ => "\n\n"))
  else if config.strategy = "token" then
    textSplitterNew config.chunk_size config.chunk_overlap
      (.token config.chunk_size config.chunk_overlap config.encoding_name)
  else
    textSplitterNew config.chunk_size config.chunk_overlap
      (.recursiveCharacter config.chunk_size config.chunk_overlap none)

/-- One element of the list `ChunkingEngine.split_text` returns:
a dict `{"content": chunk, "metadata": chunk_metadata}`. -/
structure RawChunk (V : Type) where
  content : String
  metadata : Meta V
deriving DecidableEq, Repr

/-- The `for i, chunk in enumerate(chunks)` loop body of `split_text`,
carrying the running index. -/
def splitTextAux {V : Type} (md : Meta V) : Nat → List String → List (RawChunk V)
  | _, [] => []
  | i, c :: rest =>
      { content := c, metadata := dictSet md "chunk_index" (.intV i) } ::
        splitTextAux md (i + 1) rest

/-- `ChunkingEngine.split_text(text, metadata)`.  The call
`self.splitter.split_text(text)` into the third-party splitter is
abstracted by its result, the list `rawSplits` of chunk strings.
`metadata.copy() if metadata else {}` is the value
`metadata.getD []`: the input dictionary itself is only read. -/
def splitText {V : Type} (rawSplits : List String) (metadata : Option (Meta V)) :
    List (RawChunk V) :=
  splitTextAux (metadata.getD []) 0 rawSplits

/-! ## Embeddings (`backend/app/application/services/embeddings.py`),
remote (`ollama`) provider.

The remote endpoint is modelled by a function
`server : String → Option (List α)`: `some emb` is a successful
`requests.post` whose JSON carries the embedding `emb`, `none` is any
exception on that request (connection error, non-2xx status from
`raise_for_status`, missing `"embedding"` key). -/

/-- `EmbeddingEngine._embed_ollama(texts)`: one independent request per
text; any per-text exception is caught and replaced by the zero vector
`[0.0] * self.dimension`.  The function itself never raises. -/
def embedOllama {α : Type} [Zero α] (dimension : Nat)
    (server : String → Option (List α)) (texts : List String) :
    List (List α) :=
  texts.map fun t =>
    match server t with
    | some emb => emb
    | none => List.replicate dimension (0 : α)

/-- The dimension `_initialize_provider` computes for the `ollama`
provider: `self.dimension` starts at `0`, the probe
`self._embed_ollama(["test"])` is run (it cannot raise: per-text
exceptions are caught inside `_embed_ollama`, degrading to the zero
vector of the current dimension `0`, i.e. `[]`), and
`self.dimension = len(dummy_emb[0])`.  The `except` fallback to `4096`
is unreachable for this provider path. -/
def ollamaInitDimension {α : Type} [Zero α]
    (server : String → Option (List α)) : Nat :=
  ((embedOllama 0 server ["test"]).headD []).length

/-- `EmbeddingEngine.embed_text` on a list argument with
`provider == "ollama"`: returns `self._embed_ollama(texts)` unchanged. -/
def embedTextOllamaBatch {α : Type} [Zero α] (dimension : Nat)
    (server : String → Option (List α)) (texts : List String) :
    List (List α) :=
  embedOllama dimension server texts

/-! ## Orchestrator (`backend/app/application/services/orchestrator.py`)

Collaborator behaviour for one document: the outcome of the splitter
call inside `chunking_engine.split_text`, of
`embedding_engine.embed_text`, and of `vector_store.index_chunks`.
An `Except.error` is an exception raised by that collaborator; the
`(success, failed)` counts reported by `index_chunks` are naturals, as
returned by every vector-store adapter in the repository
(`len(chunks), 0`, or the counts of `opensearchpy.helpers.bulk`). -/

structure DocEnv (V α : Type) where
  split : Except String (List String)
  embed : List String → Except String (List (List α))
  index : List (Chunk V α) → Except String (Nat × Nat)

/-- The `for i, raw_chunk in enumerate(raw_chunks)` loop of
`_process_document` step 4, building the `Chunk` records.
`embeddings.getD i []` stands for `embeddings[i]`; `_process_document`
only builds the list under the guard that every index is in bounds
(out-of-bounds `embeddings[i]` raises `IndexError`, handled by the
caller's guard). -/
def builtChunksAux {V α : Type} (uuids : Nat → String) (doc : Document V)
    (embeddings : List (List α)) : Nat → List (RawChunk V) → List (Chunk V α)
  | _, [] => []
  | i, rc :: rest =>
      { content := rc.content, metadata := rc.metadata,
        embedding := embeddings.getD i [], source_id := doc.source_id,
        chunk_id := uuids i } :: builtChunksAux uuids doc embeddings (i + 1) rest

/-- `chunks_to_index` of `_process_document`; `uuids` supplies the
`str(uuid.uuid4())` values. -/
def builtChunks {V α : Type} (uuids : Nat → String) (doc : Document V)
    (raw_chunks : List (RawChunk V)) (embeddings : List (List α)) :
    List (Chunk V α) :=
  builtChunksAux uuids doc embeddings 0 raw_chunks

/-- `IngestionOrchestrator._process_document(doc)`.  The whole body runs
under `try/except Exception: return 0`, so every collaborator exception
maps to `0`.  Notes kept from the source:
* `raw_chunks` is `split_text` applied to the splitter output;
* `if not texts: return 0` is the empty-`texts` test;
* the `isinstance(embeddings[0], list)` re-wrap guard is statically
  inert here because `embed` is typed as returning a list of vectors;
* `embeddings[i]` raising `IndexError` when the embedding list is
  shorter than `raw_chunks` is the `embeddings.length < raw_chunks.length`
  branch (caught by the guard, hence `0`);
* `return int(success)` on the success path. -/
def processDocument {V α : Type} (uuids : Nat → String) (env : DocEnv V α)
    (doc : Document V) : Nat :=
  match env.split with
  | .error _ => 0
  | .ok rawSplits =>
    let raw_chunks := splitText rawSplits (some doc.metadata)
    let texts := raw_chunks.map RawChunk.content
    if texts = [] then 0
    else
      match env.embed texts with
      | .error _ => 0
      | .ok embeddings =>
        if embeddings.length < raw_chunks.length then 0
        else
          let chunks_to_index := builtChunks uuids doc raw_chunks embeddings
          if chunks_to_index.isEmpty then 0
          else
            match env.index chunks_to_index with
            | .error _ => 0
            | .ok (success, _failed) => success

/-- Outcome of probing `data_source.get_document_count` in `run`:
the attribute may be absent (`hasattr` is false), the call may raise,
or it returns a count.  Counts are naturals: the only repository source
implementing the method (`MongoDBDataSource.get_document_count`) returns
MongoDB document counts, which are non-negative. -/
inductive CountProbe where
  | absent
  | raises (msg : String)
  | returns (n : Nat)
deriving DecidableEq, Repr

/-- The behaviour of one data source plus the per-run collaborators, as
`IngestionOrchestrator.run` can observe it.  `docs` are the documents
`load_data()` yields, in order; `iterError = some e` means the generator
raises `e` after yielding them (a broken cursor), `none` that it is
exhausted normally.  `hasProgress`/`hasTotal` are the truthiness of the
optional callbacks; callbacks are modelled as pure observers and the
calls made to them are recorded as traces. -/
structure SourceEnv (V α : Type) where
  docs : List (Document V)
  iterError : Option String := none
  docEnv : Document V → DocEnv V α
  countProbe : CountProbe := .absent
  hasProgress : Bool := true
  hasTotal : Bool := true

/-- The final value of `run` together with the observable callback
traces. -/
inductive RunResult where
  | success (documents chunks : Nat)
  | failure (error : String)
deriving DecidableEq, Repr

structure RunTrace where
  result : RunResult
  progressCalls : List (Nat × Nat)
  totalCalls : List Nat
deriving DecidableEq, Repr

/-- The total-count phase of `run` (its own `try/except`): the total
callback is invoked iff the attribute exists, the call returns without
raising, the returned count is truthy (non-zero), and a total callback
was provided. -/
def totalPhase {V α : Type} (env : SourceEnv V α) : List Nat :=
  match env.countProbe with
  | .returns n => if n ≠ 0 ∧ env.hasTotal = true then [n] else []
  | _ => []

/-- Body of the sequential `for doc in self.data_source.load_data()`
loop: count the document, add its chunks, fire the progress callback
when one was provided. -/
def seqStep {V α : Type} (uuids : Nat → String)
    (docEnv : Document V → DocEnv V α) (hasProgress : Bool)
    (st : Nat × Nat × List (Nat × Nat)) (doc : Document V) :
    Nat × Nat × List (Nat × Nat) :=
  let dc := st.1 + 1
  let cc := st.2.1 + processDocument uuids (docEnv doc) doc
  (dc, cc, st.2.2 ++ if hasProgress then [(dc, cc)] else [])

/-- The sequential loop of `run`: accumulates
`(doc_count, chunk_count, progress-call trace)`. -/
def seqLoop {V α : Type} (uuids : Nat → String) (env : SourceEnv V α) :
    Nat × Nat × List (Nat × Nat) :=
  env.docs.foldl (seqStep uuids env.docEnv env.hasProgress) (0, 0, [])

/-! Parallel mode.  The worker pool is modelled by the multiset of
submitted-but-unconsumed futures, each recorded as
`(queued document ordinal, its chunk count)`; `_process_document` is
deterministic in the model, so a future's value is known at submission.
`as_completed` returning whichever future happens to finish first is the
only nondeterminism; it is resolved by an arbitrary choice sequence
`choices : Nat → Nat`, consumed one entry per completion event. -/

structure PState where
  pending : List (Nat × Nat)
  docCount : Nat
  chunkCount : Nat
  progress : List (Nat × Nat)
  hwm : Nat
  step : Nat
deriving DecidableEq, Repr

/-- One completion event: `next(as_completed(...))` picks an arbitrary
pending future (index chosen by the oracle), its chunk count is added,
and the progress callback fires with the queued ordinal of that
document and the new running chunk count.  On an empty pending set this
is the identity (the code never reaches that case: the surrounding
loops stop first). -/
def consumeOne (hasProgress : Bool) (choices : Nat → Nat) (s : PState) :
    PState :=
  if s.pending.isEmpty then s
  else
    let i := choices s.step % s.pending.length
    let done := s.pending.getD i (0, 0)
    { s with
      pending := s.pending.eraseIdx i,
      chunkCount := s.chunkCount + done.2,
      progress := s.progress ++
        (if hasProgress then [(done.1, s.chunkCount + done.2)] else []),
      step := s.step + 1 }

/-- `while len(futures_to_doc_num) >= bound: consume one`, written with
explicit fuel.  Each iteration removes one pending future, so fuel equal
to the pending size is enough for the loop to reach its exit condition;
the final drain is the same loop with `bound = 1`
(`for future in as_completed(...)`). -/
def drainWhile (hasProgress : Bool) (choices : Nat → Nat) (bound : Nat) :
    Nat → PState → PState
  | 0, s => s
  | fuel + 1, s =>
      if bound ≤ s.pending.length ∧ s.pending ≠ [] then
        drainWhile hasProgress choices bound fuel (consumeOne hasProgress choices s)
      else s

/-- The drain loop started with sufficient fuel. -/
def drain (hasProgress : Bool) (choices : Nat → Nat) (bound : Nat)
    (s : PState) : PState :=
  drainWhile hasProgress choices bound s.pending.length s

/-- One iteration of the parallel submission loop: count the document,
submit its future, then apply backpressure
(`while len(futures_to_doc_num) >= self.max_workers * 2`). -/
def parStep {V α : Type} (uuids : Nat → String)
    (docEnv : Document V → DocEnv V α) (hasProgress : Bool)
    (choices : Nat → Nat) (window : Nat) (s : PState) (doc : Document V) :
    PState :=
  let s1 : PState :=
    { s with
      docCount := s.docCount + 1,
      pending := s.pending ++
        [(s.docCount + 1, processDocument uuids (docEnv doc) doc)],
      hwm := max s.hwm (s.pending.length + 1) }
  drain hasProgress choices window s1

/-- State after the parallel submission loop has consumed the whole
document stream. -/
def parSubmitted {V α : Type} (uuids : Nat → String) (choices : Nat → Nat)
    (max_workers : Nat) (env : SourceEnv V α) : PState :=
  env.docs.foldl
    (parStep uuids env.docEnv env.hasProgress choices (max_workers * 2))
    { pending := [], docCount := 0, chunkCount := 0, progress := [],
      hwm := 0, step := 0 }

/-- State after the final `for future in as_completed(...)` drain. -/
def parFinalState {V α : Type} (uuids : Nat → String) (choices : Nat → Nat)
    (max_workers : Nat) (env : SourceEnv V α) : PState :=
  drain env.hasProgress choices 1 (parSubmitted uuids choices max_workers env)

/-- The parallel branch of `run`.  `ThreadPoolExecutor(max_workers=0)`
raises `ValueError` inside the `try`, hence the error result for
`max_workers = 0`.  When the stream raises (`iterError`), the exception
propagates out of the `with` block after the submission loop: the final
drain does not run and the per-run guard returns the error dict. -/
def parRun {V α : Type} (uuids : Nat → String) (choices : Nat → Nat)
    (max_workers : Nat) (env : SourceEnv V α) : RunTrace :=
  if max_workers = 0 then
    { result := .failure "max_workers must be greater than 0",
      progressCalls := [], totalCalls := totalPhase env }
  else
    match env.iterError with
    | some e =>
        { result := .failure e,
          progressCalls := (parSubmitted uuids choices max_workers env).progress,
          totalCalls := totalPhase env }
    | none =>
        { result := .success (parFinalState uuids choices max_workers env).docCount
            (parFinalState uuids choices max_workers env).chunkCount,
          progressCalls := (parFinalState uuids choices max_workers env).progress,
          totalCalls := totalPhase env }

/-- `IngestionOrchestrator.run` of
`backend/app/application/services/orchestrator.py`: total-count phase,
then the guarded pipeline, dispatching on
`self.execution_mode == "parallel"`. -/
def appRun {V α : Type} (uuids : Nat → String) (choices : Nat → Nat)
    (mode : String) (max_workers : Nat) (env : SourceEnv V α) : RunTrace :=
  if mode = "parallel" then parRun uuids choices max_workers env
  else
    let st := seqLoop uuids env
    match env.iterError with
    | some e =>
        { result := .failure e, progressCalls := st.2.2,
          totalCalls := totalPhase env }
    | none =>
        { result := .success st.1 st.2.1, progressCalls := st.2.2,
          totalCalls := totalPhase env }

/-! ## Legacy orchestrator (`backend/app/core/orchestrator.py`)

The repository carries a second `IngestionOrchestrator` under
`backend/app/core/`.  Its `_process_document` has the same guarded
shape; its `run` has no callbacks, buffers every submitted future in a
plain list in parallel mode, saves a checkpoint, returns `None` on
success, and re-raises (`raise e`) any exception its `except` block
catches. -/

/-- One element of the legacy `docs_to_index` list:
`{"content": ..., "embedding": ..., "metadata": ...}`. -/
structure CoreIndexedDoc (V α : Type) where
  content : String
  embedding : List α
  metadata : Meta V
deriving DecidableEq, Repr

structure CoreDocEnv (V α : Type) where
  split : Except String (List String)
  embed : List String → Except String (List (List α))
  index : List (CoreIndexedDoc V α) → Except String (Nat × Nat)

/-- The `for i, chunk in enumerate(chunks)` build loop of the legacy
`_process_document`. -/
def coreBuiltDocsAux {V α : Type} (embeddings : List (List α)) :
    Nat → List (RawChunk V) → List (CoreIndexedDoc V α)
  | _, [] => []
  | i, rc :: rest =>
      { content := rc.content, embedding := embeddings.getD i [],
        metadata := rc.metadata } :: coreBuiltDocsAux embeddings (i + 1) rest

/-- `core/orchestrator.py`'s `IngestionOrchestrator._process_document`:
same guarded pipeline as the application variant, without chunk ids. -/
def coreProcessDocument {V α : Type} (env : CoreDocEnv V α)
    (doc : Document V) : Nat :=
  match env.split with
  | .error _ => 0
  | .ok rawSplits =>
    let chunks := splitText rawSplits (some doc.metadata)
    let texts := chunks.map RawChunk.content
    if texts = [] then 0
    else
      match env.embed texts with
      | .error _ => 0
      | .ok embeddings =>
        if embeddings.length < chunks.length then 0
        else
          let docs_to_index := coreBuiltDocsAux embeddings 0 chunks
          if docs_to_index.isEmpty then 0
          else
            match env.index docs_to_index with
            | .error _ => 0
            | .ok (success, _failed) => success

structure CoreSourceEnv (V α : Type) where
  docs : List (Document V)
  iterError : Option String := none
  docEnv : Document V → CoreDocEnv V α
  checkpoint : Except String Unit := .ok ()

deriving instance DecidableEq for Except

/-- Observable outcome of the legacy `run`: `result = .ok ()` is the
implicit `return None`, `result = .error e` is an exception propagating
out of `run` (the `raise e` in its `except` block, or the
`ThreadPoolExecutor` constructor).  `hwm` is the largest number of
submitted-but-unconsumed futures held at any point. -/
structure CoreRunOut where
  result : Except String Unit
  docCount : Nat
  chunkCount : Nat
  hwm : Nat
deriving DecidableEq, Repr

/-- `core/orchestrator.py`'s `IngestionOrchestrator.run`.  In parallel
mode the submission loop appends every future to the list `futures`
before any result is consumed, so the pending high-water mark equals the
number of submitted documents; results are then consumed in submission
order. -/
def coreRun {V α : Type} (mode : String) (max_workers : Nat)
    (env : CoreSourceEnv V α) : CoreRunOut :=
  if mode = "parallel" then
    if max_workers = 0 then
      { result := .error "max_workers must be greater than 0",
        docCount := 0, chunkCount := 0, hwm := 0 }
    else
      let st := env.docs.foldl
        (fun (st : List Nat × Nat × Nat) doc =>
          let futures := st.1 ++ [coreProcessDocument (env.docEnv doc) doc]
          (futures, st.2.1 + 1, max st.2.2 futures.length))
        ([], 0, 0)
      match env.iterError with
      | some e =>
          { result := .error e, docCount := st.2.1, chunkCount := 0,
            hwm := st.2.2 }
      | none =>
          let chunkCount := st.1.foldl (· + ·) 0
          match env.checkpoint with
          | .error e =>
              { result := .error e, docCount := st.2.1,
                chunkCount := chunkCount, hwm := st.2.2 }
          | .ok _ =>
              { result := .ok (), docCount := st.2.1,
                chunkCount := chunkCount, hwm := st.2.2 }
  else
    let st := env.docs.foldl
      (fun (st : Nat × Nat) doc =>
        (st.1 + 1, st.2 + coreProcessDocument (env.docEnv doc) doc))
      (0, 0)
    match env.iterError with
    | some e =>
        { result := .error e, docCount := st.1, chunkCount := st.2, hwm := 0 }
    | none =>
        match env.checkpoint with
        | .error e =>
            { result := .error e, docCount := st.1, chunkCount := st.2,
              hwm := 0 }
        | .ok _ =>
            { result := .ok (), docCount := st.1, chunkCount := st.2,
              hwm := 0 }

/-! ## Derived notions used by the statements -/

/-- Sum of the chunk counts of a pending-future list. -/
def sumSnd (l : List (Nat × Nat)) : Nat := (l.map Prod.snd).sum

/-- The cumulative progress trace `[(1, c₁), (2, c₁+c₂), ...]` of a
per-document chunk-count list. -/
def cumTraceAux : Nat → Nat → List Nat → List (Nat × Nat)
  | _, _, [] => []
  | d, c, x :: xs => (d + 1, c + x) :: cumTraceAux (d + 1) (c + x) xs

def cumTrace (cs : List Nat) : List (Nat × Nat) := cumTraceAux 0 0 cs

/-! ## Concrete instances for witnesses and counterexamples -/

/-- A collaborator set whose every call succeeds trivially
(empty split, so each document contributes 0 chunks). -/
def okCoreDocEnv : Document Unit → CoreDocEnv Unit Int := fun _ =>
  { split := .ok [], embed := fun _ => .ok [], index := fun _ => .ok (0, 0) }

/-- A document with no content and no metadata. -/
def dummyDoc : Document Unit :=
  { content := "", metadata := [], source_id := "s" }

/-- A source whose `load_data` generator raises `"boom"` immediately. -/
def envIterBoom : CoreSourceEnv Unit Int :=
  { docs := [], iterError := some "boom", docEnv := okCoreDocEnv }

/-- A source yielding three trivially processed documents. -/
def envThreeDocs : CoreSourceEnv Unit Int :=
  { docs := [dummyDoc, dummyDoc, dummyDoc], docEnv := okCoreDocEnv }

/-- An ollama endpoint whose probe answers a 3-dimensional vector but
whose later answers are 2-dimensional. -/
def shiftingServer : String → Option (List Int) := fun t =>
  if t = "test" then some [0, 0, 0] else some [7, 7]

/-- An ollama endpoint whose answers always have dimension 2, except for
one failing prompt. -/
def okServer : String → Option (List Int) := fun t =>
  if t = "bad" then none else some [5, 6]

/-- Fixed chunk-id supply for concrete runs. -/
def uuidsW : Nat → String := fun _ => "id"

/-- Completion-order oracle that always picks the first pending future. -/
def choicesW : Nat → Nat := fun _ => 0

/-- A document carrying one metadata binding. -/
def wDoc : Document Unit :=
  { content := "hello", metadata := [("source", .other ())], source_id := "s1" }

/-- Per-document collaborators for which every step succeeds: the
splitter yields two chunk strings, embedding yields one vector per text,
and the sink reports every chunk indexed. -/
def wDocEnvOk : DocEnv Unit Int :=
  { split := .ok ["ab", "cd"], embed := fun _ => .ok [[1], [2]],
    index := fun cs => .ok (cs.length, 0) }

/-- Per-document collaborators whose splitter raises. -/
def wDocEnvSplitBoom : DocEnv Unit Int :=
  { split := .error "chunk boom", embed := fun _ => .ok [[1]],
    index := fun cs => .ok (cs.length, 0) }

/-- A two-document source with fully succeeding collaborators and a
reported total of 2. -/
def wEnv : SourceEnv Unit Int :=
  { docs := [wDoc, wDoc], docEnv := fun _ => wDocEnvOk,
    countProbe := .returns 2 }

/-- A config with `chunk_overlap = chunk_size`, violating the spec
invariant `overlap < size`. -/
def cfgOverlapEq : ChunkConfig :=
  { strategy := "recursive", chunk_size := 100, chunk_overlap := 100 }

/-- A config with an unrecognized strategy name and a custom separator
list. -/
def cfgSem : ChunkConfig :=
  { strategy := "semantic", chunk_size := 10, chunk_overlap := 0,
    separators := some ["X"] }

/-- A config whose overlap strictly exceeds its size. -/
def cfgOverlapBig : ChunkConfig :=
  { strategy := "recursive", chunk_size := 100, chunk_overlap := 300 }

/-! ## Helper lemmas -/

theorem dictGet_dictSet_same {V : Type} (m : Meta V) (k : String) (v : PyVal V) :
    dictGet? (dictSet m k v) k = some v := by
  induction m with
  | nil => simp [dictSet, dictGet?]
  | cons p rest ih =>
    by_cases h : p.1 = k
    · simp [dictSet, dictGet?, h]
    · simp [dictSet, dictGet?, h, ih]

theorem dictGet_dictSet_other {V : Type} (m : Meta V) (k k' : String)
    (v : PyVal V) (hne : k' ≠ k) :
    dictGet? (dictSet m k v) k' = dictGet? m k' := by
  induction m with
  | nil => simp [dictSet, dictGet?, Ne.symm hne]
  | cons p rest ih =>
    obtain ⟨a, b⟩ := p
    by_cases h : a = k
    · subst h
      simp [dictSet, dictGet?, Ne.symm hne]
    · simp [dictSet, dictGet?, h, ih]

theorem splitTextAux_length {V : Type} (md : Meta V) :
    ∀ (l : List String) (j : Nat), (splitTextAux md j l).length = l.length := by
  intro l
  induction l with
  | nil => intro j; rfl
  | cons c rest ih => intro j; simp [splitTextAux, ih]

theorem splitTextAux_getElem {V : Type} (md : Meta V) :
    ∀ (l : List String) (j i : Nat),
      (splitTextAux md j l)[i]? = (l[i]?).map fun c =>
        ({ content := c,
           metadata := dictSet md "chunk_index" (.intV (j + i)) } : RawChunk V) := by
  intro l
  induction l with
  | nil => intro j i; rfl
  | cons c rest ih =>
    intro j i
    cases i with
    | zero => simp [splitTextAux]
    | succ i =>
      have h : j + 1 + i = j + (i + 1) := by omega
      simp only [splitTextAux, List.getElem?_cons_succ, ih (j + 1) i, h]

theorem sumSnd_nil : sumSnd [] = 0 := rfl

theorem sumSnd_cons (a : Nat × Nat) (l : List (Nat × Nat)) :
    sumSnd (a :: l) = a.2 + sumSnd l := by
  simp [sumSnd]

theorem sumSnd_append_singleton (l : List (Nat × Nat)) (a : Nat × Nat) :
    sumSnd (l ++ [a]) = sumSnd l + a.2 := by
  simp [sumSnd]

theorem length_eraseIdx' {β : Type} :
    ∀ (l : List β) (i : Nat), i < l.length → (l.eraseIdx i).length + 1 = l.length := by
  intro l
  induction l with
  | nil => intro i h; simp at h
  | cons a rest ih =>
    intro i h
    cases i with
    | zero => rfl
    | succ i =>
      have : i < rest.length := by simpa using h
      simp only [List.eraseIdx, List.length_cons]
      rw [ih i this]

theorem getD_snd_add_sumSnd_eraseIdx :
    ∀ (l : List (Nat × Nat)) (i : Nat), i < l.length →
      (l.getD i (0, 0)).2 + sumSnd (l.eraseIdx i) = sumSnd l := by
  intro l
  induction l with
  | nil => intro i h; simp at h
  | cons a rest ih =>
    intro i h
    cases i with
    | zero => simp [List.eraseIdx, sumSnd_cons]
    | succ i =>
      have hi : i < rest.length := by simpa using h
      have h1 : (a :: rest).getD (i + 1) (0, 0) = rest.getD i (0, 0) := rfl
      have h2 : (a :: rest).eraseIdx (i + 1) = a :: rest.eraseIdx i := rfl
      rw [h1, h2, sumSnd_cons, sumSnd_cons, ← ih i hi]
      omega

theorem cumTraceAux_length :
    ∀ (cs : List Nat) (d c : Nat), (cumTraceAux d c cs).length = cs.length := by
  intro cs
  induction cs with
  | nil => intro d c; rfl
  | cons x xs ih => intro d c; simp [cumTraceAux, ih]

theorem cumTraceAux_getElem :
    ∀ (cs : List Nat) (d c i : Nat), i < cs.length →
      (cumTraceAux d c cs)[i]? = some (d + i + 1, c + (cs.take (i + 1)).sum) := by
  intro cs
  induction cs with
  | nil => intro d c i h; simp at h
  | cons x xs ih =>
    intro d c i h
    cases i with
    | zero => simp [cumTraceAux]
    | succ i =>
      have hi : i < xs.length := by simpa using h
      simp only [cumTraceAux, List.getElem?_cons_succ, ih (d + 1) (c + x) i hi,
        List.take_succ_cons, List.sum_cons, Option.some.injEq, Prod.mk.injEq]
      exact ⟨by omega, by omega⟩

theorem seqStep_fold {V α : Type} (uuids : Nat → String)
    (docEnv : Document V → DocEnv V α) (hp : Bool) :
    ∀ (docs : List (Document V)) (dc cc : Nat) (tr : List (Nat × Nat)),
      docs.foldl (seqStep uuids docEnv hp) (dc, cc, tr) =
        (dc + docs.length,
         cc + (docs.map fun d => processDocument uuids (docEnv d) d).sum,
         tr ++ if hp then
           cumTraceAux dc cc (docs.map fun d => processDocument uuids (docEnv d) d)
         else []) := by
  intro docs
  induction docs with
  | nil => intro dc cc tr; cases hp <;> simp [cumTraceAux]
  | cons d ds ih =>
    intro dc cc tr
    simp only [List.foldl_cons, seqStep, ih, List.length_cons, List.map_cons,
      List.sum_cons, cumTraceAux, Prod.mk.injEq]
    refine ⟨by omega, by omega, ?_⟩
    cases hp <;> simp

/-- Closed form of the sequential loop: final document count, final
chunk count, and the cumulative progress trace. -/
theorem seqLoop_spec {V α : Type} (uuids : Nat → String) (env : SourceEnv V α) :
    seqLoop uuids env =
      (env.docs.length,
       (env.docs.map fun d => processDocument uuids (env.docEnv d) d).sum,
       if env.hasProgress then
         cumTrace (env.docs.map fun d => processDocument uuids (env.docEnv d) d)
       else []) := by
  unfold seqLoop cumTrace
  rw [seqStep_fold]
  simp

theorem consumeOne_docCount (hp : Bool) (choices : Nat → Nat) (s : PState) :
    (consumeOne hp choices s).docCount = s.docCount := by
  unfold consumeOne
  split <;> rfl

theorem consumeOne_hwm (hp : Bool) (choices : Nat → Nat) (s : PState) :
    (consumeOne hp choices s).hwm = s.hwm := by
  unfold consumeOne
  split <;> rfl

theorem consumeOne_measure (hp : Bool) (choices : Nat → Nat) (s : PState) :
    (consumeOne hp choices s).chunkCount + sumSnd (consumeOne hp choices s).pending =
      s.chunkCount + sumSnd s.pending := by
  unfold consumeOne
  split
  · rfl
  · rename_i hne
    have hlen : 0 < s.pending.length := by
      cases hp' : s.pending with
      | nil => rw [hp'] at hne; simp [List.isEmpty] at hne
      | cons a t => simp [hp']
    have hi : choices s.step % s.pending.length < s.pending.length :=
      Nat.mod_lt _ hlen
    have := getD_snd_add_sumSnd_eraseIdx s.pending
      (choices s.step % s.pending.length) hi
    simp only []
    omega

theorem consumeOne_length (hp : Bool) (choices : Nat → Nat) (s : PState)
    (hne : s.pending ≠ []) :
    (consumeOne hp choices s).pending.length + 1 = s.pending.length := by
  unfold consumeOne
  have hemp : s.pending.isEmpty = false := by
    cases hp' : s.pending with
    | nil => exact absurd hp' hne
    | cons a t => rfl
  rw [hemp]
  simp only [Bool.false_eq_true, if_false]
  have hlen : 0 < s.pending.length := by
    cases hp' : s.pending with
    | nil => exact absurd hp' hne
    | cons a t => simp [hp']
  exact length_eraseIdx' s.pending _ (Nat.mod_lt _ hlen)

theorem drainWhile_docCount (hp : Bool) (choices : Nat → Nat) (bound : Nat) :
    ∀ (fuel : Nat) (s : PState),
      (drainWhile hp choices bound fuel s).docCount = s.docCount := by
  intro fuel
  induction fuel with
  | zero => intro s; rfl
  | succ fuel ih =>
    intro s
    unfold drainWhile
    split
    · rw [ih, consumeOne_docCount]
    · rfl

theorem drainWhile_hwm (hp : Bool) (choices : Nat → Nat) (bound : Nat) :
    ∀ (fuel : Nat) (s : PState),
      (drainWhile hp choices bound fuel s).hwm = s.hwm := by
  intro fuel
  induction fuel with
  | zero => intro s; rfl
  | succ fuel ih =>
    intro s
    unfold drainWhile
    split
    · rw [ih, consumeOne_hwm]
    · rfl

theorem drainWhile_measure (hp : Bool) (choices : Nat → Nat) (bound : Nat) :
    ∀ (fuel : Nat) (s : PState),
      (drainWhile hp choices bound fuel s).chunkCount +
        sumSnd (drainWhile hp choices bound fuel s).pending =
      s.chunkCount + sumSnd s.pending := by
  intro fuel
  induction fuel with
  | zero => intro s; rfl
  | succ fuel ih =>
    intro s
    unfold drainWhile
    split
    · rw [ih, consumeOne_measure]
    · rfl

theorem drainWhile_post (hp : Bool) (choices : Nat → Nat) (bound : Nat)
    (hb : 1 ≤ bound) :
    ∀ (fuel : Nat) (s : PState), s.pending.length ≤ fuel →
      (drainWhile hp choices bound fuel s).pending.length < bound := by
  intro fuel
  induction fuel with
  | zero =>
    intro s hf
    have : s.pending.length = 0 := Nat.le_zero.mp hf
    simpa [drainWhile, this] using hb
  | succ fuel ih =>
    intro s hf
    unfold drainWhile
    split
    · rename_i hcond
      apply ih
      have := consumeOne_length hp choices s hcond.2
      omega
    · rename_i hcond
      rcases Decidable.not_and_iff_or_not.mp hcond with h | h
      · omega
      · have : s.pending = [] := not_not.mp h
        simp [this]
        omega

theorem drain_docCount (hp : Bool) (choices : Nat → Nat) (bound : Nat)
    (s : PState) : (drain hp choices bound s).docCount = s.docCount :=
  drainWhile_docCount hp choices bound _ s

theorem drain_hwm (hp : Bool) (choices : Nat → Nat) (bound : Nat)
    (s : PState) : (drain hp choices bound s).hwm = s.hwm :=
  drainWhile_hwm hp choices bound _ s

theorem drain_measure (hp : Bool) (choices : Nat → Nat) (bound : Nat)
    (s : PState) :
    (drain hp choices bound s).chunkCount + sumSnd (drain hp choices bound s).pending =
      s.chunkCount + sumSnd s.pending :=
  drainWhile_measure hp choices bound _ s

theorem drain_post (hp : Bool) (choices : Nat → Nat) (bound : Nat)
    (hb : 1 ≤ bound) (s : PState) :
    (drain hp choices bound s).pending.length < bound :=
  drainWhile_post hp choices bound hb _ s (Nat.le_refl _)

theorem parStep_docCount {V α : Type} (uuids : Nat → String)
    (docEnv : Document V → DocEnv V α) (hp : Bool) (choices : Nat → Nat)
    (window : Nat) (s : PState) (doc : Document V) :
    (parStep uuids docEnv hp choices window s doc).docCount = s.docCount + 1 := by
  unfold parStep
  rw [drain_docCount]

theorem parStep_measure {V α : Type} (uuids : Nat → String)
    (docEnv : Document V → DocEnv V α) (hp : Bool) (choices : Nat → Nat)
    (window : Nat) (s : PState) (doc : Document V) :
    (parStep uuids docEnv hp choices window s doc).chunkCount +
      sumSnd (parStep uuids docEnv hp choices window s doc).pending =
    s.chunkCount + sumSnd s.pending +
      processDocument uuids (docEnv doc) doc := by
  unfold parStep
  rw [drain_measure]
  simp only [sumSnd_append_singleton]
  omega

theorem parStep_hwm {V α : Type} (uuids : Nat → String)
    (docEnv : Document V → DocEnv V α) (hp : Bool) (choices : Nat → Nat)
    (window : Nat) (s : PState) (doc : Document V) :
    (parStep uuids docEnv hp choices window s doc).hwm =
      max s.hwm (s.pending.length + 1) := by
  unfold parStep
  rw [drain_hwm]

theorem parStep_window {V α : Type} (uuids : Nat → String)
    (docEnv : Document V → DocEnv V α) (hp : Bool) (choices : Nat → Nat)
    (window : Nat) (hw : 1 ≤ window) (s : PState) (doc : Document V) :
    (parStep uuids docEnv hp choices window s doc).pending.length < window := by
  unfold parStep
  exact drain_post hp choices window hw _

theorem parFold_counts {V α : Type} (uuids : Nat → String)
    (docEnv : Document V → DocEnv V α) (hp : Bool) (choices : Nat → Nat)
    (window : Nat) :
    ∀ (docs : List (Document V)) (s : PState),
      (docs.foldl (parStep uuids docEnv hp choices window) s).docCount =
        s.docCount + docs.length ∧
      (docs.foldl (parStep uuids docEnv hp choices window) s).chunkCount +
        sumSnd (docs.foldl (parStep uuids docEnv hp choices window) s).pending =
      s.chunkCount + sumSnd s.pending +
        (docs.map fun d => processDocument uuids (docEnv d) d).sum := by
  intro docs
  induction docs with
  | nil => intro s; simp
  | cons d ds ih =>
    intro s
    simp only [List.foldl_cons, List.length_cons, List.map_cons, List.sum_cons]
    obtain ⟨ih1, ih2⟩ := ih (parStep uuids docEnv hp choices window s d)
    constructor
    · rw [ih1, parStep_docCount]
      omega
    · rw [ih2, parStep_measure]
      omega

theorem parFold_bound {V α : Type} (uuids : Nat → String)
    (docEnv : Document V → DocEnv V α) (hp : Bool) (choices : Nat → Nat)
    (window : Nat) (hw : 1 ≤ window) :
    ∀ (docs : List (Document V)) (s : PState),
      s.pending.length < window → s.hwm ≤ window →
      (docs.foldl (parStep uuids docEnv hp choices window) s).pending.length < window ∧
      (docs.foldl (parStep uuids docEnv hp choices window) s).hwm ≤ window := by
  intro docs
  induction docs with
  | nil => intro s h1 h2; exact ⟨h1, h2⟩
  | cons d ds ih =>
    intro s h1 h2
    simp only [List.foldl_cons]
    apply ih
    · exact parStep_window uuids docEnv hp choices window hw s d
    · rw [parStep_hwm]
      omega

/-- The state after the whole parallel run: every submitted future has
been consumed, the document count equals the stream length and the
chunk count is the sum of the per-document results. -/
theorem parFinalState_spec {V α : Type} (uuids : Nat → String)
    (choices : Nat → Nat) (max_workers : Nat) (env : SourceEnv V α) :
    (parFinalState uuids choices max_workers env).pending = [] ∧
    (parFinalState uuids choices max_workers env).docCount = env.docs.length ∧
    (parFinalState uuids choices max_workers env).chunkCount =
      (env.docs.map fun d => processDocument uuids (env.docEnv d) d).sum := by
  have hpost : (parFinalState uuids choices max_workers env).pending.length < 1 :=
    drain_post _ _ 1 (Nat.le_refl 1) _
  have hemp : (parFinalState uuids choices max_workers env).pending = [] :=
    List.length_eq_zero.mp (by omega)
  obtain ⟨hc1, hc2⟩ := parFold_counts uuids env.docEnv env.hasProgress choices
    (max_workers * 2) env.docs
    { pending := [], docCount := 0, chunkCount := 0, progress := [],
      hwm := 0, step := 0 }
  have hdc : (parFinalState uuids choices max_workers env).docCount =
      env.docs.length := by
    unfold parFinalState
    rw [drain_docCount]
    unfold parSubmitted
    rw [hc1]
    simp
  have hm : (parFinalState uuids choices max_workers env).chunkCount +
      sumSnd (parFinalState uuids choices max_workers env).pending =
      (env.docs.map fun d => processDocument uuids (env.docEnv d) d).sum := by
    unfold parFinalState
    rw [drain_measure]
    unfold parSubmitted
    rw [hc2]
    simp [sumSnd]
  refine ⟨hemp, hdc, ?_⟩
  rw [hemp] at hm
  simpa [sumSnd] using hm

/-- The in-flight high-water mark of the parallel run is bounded by the
backpressure window. -/
theorem parFinalState_hwm {V α : Type} (uuids : Nat → String)
    (choices : Nat → Nat) (max_workers : Nat) (hw : 1 ≤ max_workers)
    (env : SourceEnv V α) :
    (parSubmitted uuids choices max_workers env).hwm ≤ max_workers * 2 ∧
    (parFinalState uuids choices max_workers env).hwm ≤ max_workers * 2 := by
  have hwin : 1 ≤ max_workers * 2 := by omega
  obtain ⟨_, hb⟩ := parFold_bound uuids env.docEnv env.hasProgress choices
    (max_workers * 2) hwin env.docs
    { pending := [], docCount := 0, chunkCount := 0, progress := [],
      hwm := 0, step := 0 }
    (by simp; omega) (by simp)
  refine ⟨hb, ?_⟩
  unfold parFinalState
  rw [drain_hwm]
  exact hb

/-- Full characterization of the result value of the application
orchestrator's `run`, shared by several claim theorems. -/
theorem appRun_result_eq {V α : Type} (uuids : Nat → String)
    (choices : Nat → Nat) (mode : String) (W : Nat) (env : SourceEnv V α) :
    (appRun uuids choices mode W env).result =
      if mode = "parallel" ∧ W = 0 then
        .failure "max_workers must be greater than 0"
      else
        match env.iterError with
        | some e => .failure e
        | none =>
            .success env.docs.length
              ((env.docs.map fun d => processDocument uuids (env.docEnv d) d).sum) := by
  unfold appRun
  by_cases hm : mode = "parallel"
  · unfold parRun
    by_cases hw : W = 0
    · simp [hm, hw]
    · cases hi : env.iterError with
      | some e => simp [hm, hw, hi]
      | none =>
        obtain ⟨_, hdc, hcc⟩ := parFinalState_spec uuids choices W env
        simp [hm, hw, hi, hdc, hcc]
  · cases hi : env.iterError with
    | some e => simp [hm, hi]
    | none => simp [hm, hi, seqLoop_spec]

/-! ## Claims -/

/-- C1, amended: for the application-layer orchestrator
(`backend/app/application/services/orchestrator.py`), `run` never
raises: whatever the data source, the collaborators and the execution
mode, its result is the map `{documents: N, chunks: M}` when no
exception escapes the per-document guard, and the map
`{error: description}` when one does (the source's `load_data`
iteration raising, or the worker-pool constructor rejecting
`max_workers = 0`).  The claim as frozen also covers the legacy
`backend/app/core/orchestrator.py` variant, which instead re-raises
(see the counterexample). -/
theorem appRun_never_raises {V α : Type} (uuids : Nat → String)
    (choices : Nat → Nat) (mode : String) (W : Nat) (env : SourceEnv V α) :
    (appRun uuids choices mode W env).result =
      if mode = "parallel" ∧ W = 0 then
        .failure "max_workers must be greater than 0"
      else
        match env.iterError with
        | some e => .failure e
        | none =>
            .success env.docs.length
              ((env.docs.map fun d => processDocument uuids (env.docEnv d) d).sum) :=
  appRun_result_eq uuids choices mode W env

/-- C1 counterexample: the legacy core orchestrator's `run`
(`backend/app/core/orchestrator.py`, whose `except` block ends in
`raise e`) lets the iteration exception `"boom"` propagate to the
caller instead of returning `{error: "boom"}` — and on a successful run
it returns `None` (`Except.ok ()`), not `{documents: N, chunks: M}`. -/
theorem coreRun_propagates_iteration_error :
    (coreRun "sequential" 4 envIterBoom).result = Except.error "boom" ∧
    (coreRun "sequential" 4 envThreeDocs).result = Except.ok () := by
  decide

/-- C3 (confirmed): in sequential mode over a source that yields `N`
documents and exhausts normally, `run` returns
`{documents: N, chunks: sum(Cᵢ)}` where `Cᵢ` is document `i`'s
per-document result, and a provided progress callback is invoked
exactly `N` times, the `i`-th invocation (0-based) carrying the
cumulative counts `(i + 1, C₀ + ... + Cᵢ)`. -/
theorem seqRun_counts_and_progress {V α : Type} (uuids : Nat → String)
    (choices : Nat → Nat) (W : Nat) (env : SourceEnv V α)
    (hIter : env.iterError = none) (hp : env.hasProgress = true) :
    (appRun uuids choices "sequential" W env).result =
      .success env.docs.length
        ((env.docs.map fun d => processDocument uuids (env.docEnv d) d).sum) ∧
    (appRun uuids choices "sequential" W env).progressCalls.length =
      env.docs.length ∧
    ∀ i, i < env.docs.length →
      (appRun uuids choices "sequential" W env).progressCalls[i]? =
        some (i + 1,
          ((env.docs.map fun d => processDocument uuids (env.docEnv d) d).take (i + 1)).sum) := by
  have hm : ¬ ("sequential" = "parallel") := by decide
  refine ⟨?_, ?_, ?_⟩
  · rw [appRun_result_eq]
    simp [hIter]
  · unfold appRun
    simp only [hm, if_false, seqLoop_spec, hIter, hp, if_true]
    simp [cumTrace, cumTraceAux_length]
  · intro i hi
    unfold appRun
    simp only [hm, if_false, seqLoop_spec, hIter, hp, if_true]
    have hlen : i < (env.docs.map fun d => processDocument uuids (env.docEnv d) d).length := by
      simpa using hi
    simpa [cumTrace] using cumTraceAux_getElem _ 0 0 i hlen

/-- C3 witness: two documents, each contributing 2 chunks, processed
sequentially with the progress callback attached. -/
theorem seqRun_counts_and_progress_witness :
    wEnv.iterError = none ∧ wEnv.hasProgress = true ∧
    (appRun uuidsW choicesW "sequential" 4 wEnv).result = .success 2 4 ∧
    (appRun uuidsW choicesW "sequential" 4 wEnv).progressCalls[1]? = some (2, 4) := by
  have h := seqRun_counts_and_progress uuidsW choicesW 4 wEnv rfl rfl
  refine ⟨rfl, rfl, ?_, ?_⟩
  · rw [h.1]; decide
  · rw [h.2.2 1 (by decide)]; decide

/-- C4 (confirmed): with at least one worker and a normally exhausting
stream, parallel mode returns the same aggregate
`{documents: N, chunks: sum(Cᵢ)}` as sequential mode, for every
completion-order oracle (`choices`) and every worker count — only the
accumulation order differs. -/
theorem parRun_matches_seqRun {V α : Type} (uuids : Nat → String)
    (choices : Nat → Nat) (W : Nat) (env : SourceEnv V α)
    (hW : 1 ≤ W) (hIter : env.iterError = none) :
    (appRun uuids choices "parallel" W env).result =
      (appRun uuids choices "sequential" W env).result ∧
    (appRun uuids choices "parallel" W env).result =
      .success env.docs.length
        ((env.docs.map fun d => processDocument uuids (env.docEnv d) d).sum) := by
  have hpar := appRun_result_eq uuids choices "parallel" W env
  have hseq := appRun_result_eq uuids choices "sequential" W env
  have hw : ¬ ("parallel" = "parallel" ∧ W = 0) := by
    rintro ⟨-, h0⟩; omega
  have hs : ¬ ("sequential" = "parallel" ∧ W = 0) := by
    rintro ⟨h0, -⟩; exact absurd h0 (by decide)
  rw [if_neg hw, hIter] at hpar
  rw [if_neg hs, hIter] at hseq
  exact ⟨hpar.trans hseq.symm, hpar⟩

/-- C4 witness: the two-document source processed with one worker. -/
theorem parRun_matches_seqRun_witness :
    1 ≤ 1 ∧ wEnv.iterError = none ∧
    (appRun uuidsW choicesW "parallel" 1 wEnv).result = .success 2 4 := by
  refine ⟨by decide, rfl, ?_⟩
  rw [(parRun_matches_seqRun uuidsW choicesW 1 wEnv (by decide) rfl).2]
  decide

/-- C5, amended: the application-layer parallel loop keeps the number
of submitted-but-unconsumed futures at or below `2 * max_workers` at
every point of the run (the recorded high-water mark of the in-flight
window), for any worker count ≥ 1 and any completion order: a full
window forces a completion to be consumed before the next submission.
The claim as frozen also covers the legacy core variant, which buffers
every future (see the counterexample). -/
theorem parallel_inflight_bounded {V α : Type} (uuids : Nat → String)
    (choices : Nat → Nat) (W : Nat) (env : SourceEnv V α) (hW : 1 ≤ W) :
    (parSubmitted uuids choices W env).hwm ≤ 2 * W ∧
    (parFinalState uuids choices W env).hwm ≤ 2 * W := by
  obtain ⟨h1, h2⟩ := parFinalState_hwm uuids choices W hW env
  constructor <;> omega

/-- C5 witness: the bound instantiated at one worker over the
two-document source. -/
theorem parallel_inflight_bounded_witness :
    1 ≤ 1 ∧ (parFinalState uuidsW choicesW 1 wEnv).hwm ≤ 2 * 1 :=
  ⟨by decide, (parallel_inflight_bounded uuidsW choicesW 1 wEnv (by decide)).2⟩

/-- C5 counterexample: the legacy core orchestrator's parallel mode
(`backend/app/core/orchestrator.py`, lines 83–92) appends every future
to a list before consuming any result, so with 3 documents and
`max_workers = 1` the in-flight high-water mark is 3 > 2 × 1: the
stream is fully materialized as futures. -/
theorem coreRun_parallel_buffers_all :
    (coreRun "parallel" 1 envThreeDocs).hwm = 3 ∧
    ¬ (coreRun "parallel" 1 envThreeDocs).hwm ≤ 2 * 1 := by
  decide

/-- C10 (confirmed): the total callback fires at most once, before any
document processing (its trace is `totalPhase env`, independent of the
documents and mode), and only when the probe method exists, returns
without raising, reports a strictly positive count, and a callback was
provided; a reported count of zero is treated exactly like an absent or
raising probe. -/
theorem totalCallback_policy {V α : Type} (uuids : Nat → String)
    (choices : Nat → Nat) (mode : String) (W : Nat) (env : SourceEnv V α) :
    (appRun uuids choices mode W env).totalCalls = totalPhase env ∧
    (env.countProbe = .absent → totalPhase env = []) ∧
    (∀ m, env.countProbe = .raises m → totalPhase env = []) ∧
    (env.countProbe = .returns 0 → totalPhase env = []) ∧
    (∀ n, env.countProbe = .returns n → 0 < n → env.hasTotal = true →
      totalPhase env = [n]) ∧
    (totalPhase env).length ≤ 1 := by
  refine ⟨?_, ?_, ?_, ?_, ?_, ?_⟩
  · unfold appRun parRun
    by_cases hm : mode = "parallel" <;> by_cases hw : W = 0 <;>
      cases hi : env.iterError <;> simp [hm, hw, hi]
  · intro h; simp [totalPhase, h]
  · intro m h; simp [totalPhase, h]
  · intro h; simp [totalPhase, h]
  · intro n h hn ht
    simp [totalPhase, h, ht]
    omega
  · unfold totalPhase
    split
    · split <;> simp
    · simp

/-- C10 witness: a probe reporting 2 documents with the callback
attached fires exactly once, with 2. -/
theorem totalCallback_policy_witness :
    (appRun uuidsW choicesW "sequential" 4 wEnv).totalCalls = [2] := by
  have h := totalCallback_policy uuidsW choicesW "sequential" 4 wEnv
  rw [h.1]
  exact h.2.2.2.2.1 2 rfl (by decide) rfl

/-- C2 (confirmed): `_process_document` never raises (it is a total
function of the collaborators' outcomes, every one of their exceptions
being mapped to a value) and always returns a natural number: `0` when
the splitter raises, when chunking yields zero chunks, when embedding
raises, or when the sink's `index_chunks` raises; otherwise the success
count the sink reported. -/
theorem processDocument_failure_policy {V α : Type} (uuids : Nat → String)
    (env : DocEnv V α) (doc : Document V) :
    (∀ e, env.split = .error e → processDocument uuids env doc = 0) ∧
    (env.split = .ok [] → processDocument uuids env doc = 0) ∧
    (∀ ss e, env.split = .ok ss →
      env.embed ((splitText ss (some doc.metadata)).map RawChunk.content) = .error e →
      processDocument uuids env doc = 0) ∧
    (∀ ss embs e, env.split = .ok ss →
      env.embed ((splitText ss (some doc.metadata)).map RawChunk.content) = .ok embs →
      env.index (builtChunks uuids doc (splitText ss (some doc.metadata)) embs) = .error e →
      processDocument uuids env doc = 0) ∧
    (∀ ss embs s f, env.split = .ok ss → ss ≠ [] →
      env.embed ((splitText ss (some doc.metadata)).map RawChunk.content) = .ok embs →
      (splitText ss (some doc.metadata)).length ≤ embs.length →
      env.index (builtChunks uuids doc (splitText ss (some doc.metadata)) embs) = .ok (s, f) →
      processDocument uuids env doc = s) := by
  refine ⟨?_, ?_, ?_, ?_, ?_⟩
  · intro e h
    simp [processDocument, h]
  · intro h
    simp [processDocument, h, splitText, splitTextAux]
  · intro ss e hs he
    unfold processDocument
    rw [hs]
    simp only []
    split
    · rfl
    · rw [he]
  · intro ss embs e hs he hidx
    unfold processDocument
    rw [hs]
    simp only []
    split
    · rfl
    · rw [he]
      simp only []
      split
      · rfl
      · rw [hidx]
        split
        · rfl
        · rfl
  · intro ss embs s f hs hne he hlen hidx
    obtain ⟨a, t, rfl⟩ := List.exists_cons_of_ne_nil hne
    unfold processDocument
    rw [hs]
    simp only []
    rw [if_neg (by simp [splitText, splitTextAux])]
    rw [he]
    simp only []
    rw [if_neg (by omega)]
    rw [if_neg (by simp [builtChunks, builtChunksAux, splitText, splitTextAux])]
    rw [hidx]

/-- C2 witness: a splitter exception yields 0; a fully successful
document yields the sink's reported success count (2). -/
theorem processDocument_failure_policy_witness :
    processDocument uuidsW wDocEnvSplitBoom wDoc = 0 ∧
    processDocument uuidsW wDocEnvOk wDoc = 2 := by
  constructor
  · exact (processDocument_failure_policy uuidsW wDocEnvSplitBoom wDoc).1
      "chunk boom" rfl
  · exact (processDocument_failure_policy uuidsW wDocEnvOk wDoc).2.2.2.2
      ["ab", "cd"] [[1], [2]] 2 0 rfl (by decide) rfl (by decide) (by decide)

/-- C6, amended: for the remote (ollama) provider, embedding a batch of
`K` texts returns exactly `K` vectors, and a per-text request failure
never raises out of the engine but yields the zero vector of the
declared dimension in that position; a successful response's vector is
appended unvalidated, so every returned vector has the declared
dimension only under the assumption that every successful server
response already has that length (the code checks nothing — see the
counterexample). -/
theorem embedOllama_batch_shape {α : Type} [Zero α] (dimension : Nat)
    (server : String → Option (List α)) (texts : List String)
    (hsrv : ∀ t emb, server t = some emb → emb.length = dimension) :
    (embedTextOllamaBatch dimension server texts).length = texts.length ∧
    (∀ v ∈ embedTextOllamaBatch dimension server texts, v.length = dimension) ∧
    (∀ (i : Nat) (t : String), texts[i]? = some t → server t = none →
      (embedTextOllamaBatch dimension server texts)[i]? =
        some (List.replicate dimension 0)) := by
  unfold embedTextOllamaBatch embedOllama
  refine ⟨List.length_map _ _, ?_, ?_⟩
  · intro v hv
    rw [List.mem_map] at hv
    obtain ⟨t, -, rfl⟩ := hv
    cases h : server t with
    | some emb => simpa [h] using hsrv t emb h
    | none => simp [h]
  · intro i t ht hnone
    rw [List.getElem?_map, ht]
    simp [hnone]

/-- C6 witness: a 2-dimensional endpoint with one failing prompt:
two texts in, two vectors out, the failing position holding the zero
vector `[0, 0]`. -/
theorem embedOllama_batch_shape_witness :
    (embedTextOllamaBatch 2 okServer ["a", "bad"]).length = 2 ∧
    (embedTextOllamaBatch 2 okServer ["a", "bad"])[1]? = some [0, 0] := by
  have hsrv : ∀ t emb, okServer t = some emb → emb.length = 2 := by
    intro t emb h
    unfold okServer at h
    split at h
    · exact absurd h (by simp)
    · cases h; rfl
  have h := embedOllama_batch_shape 2 okServer ["a", "bad"] hsrv
  exact ⟨h.1, h.2.2 1 "bad" rfl (by decide)⟩

/-- C6 counterexample: an endpoint whose construction-time probe
answers a 3-dimensional vector (so the declared dimension is 3) but
whose later successful answer is 2-dimensional: the batch result
`[[7, 7]]` contains a vector whose length differs from the declared
dimension, refuting the claim that every returned vector has the
declared dimension. -/
theorem embedOllama_dimension_mismatch :
    ollamaInitDimension shiftingServer = 3 ∧
    embedTextOllamaBatch (ollamaInitDimension shiftingServer) shiftingServer
      ["doc"] = [[7, 7]] ∧
    ¬ (∀ v ∈ embedTextOllamaBatch (ollamaInitDimension shiftingServer)
        shiftingServer ["doc"], v.length = ollamaInitDimension shiftingServer) := by
  decide

/-- C7 (confirmed): `split_text` returns the splitter's chunks in
document order; the `i`-th output's content is the `i`-th chunk string
and its metadata is the input metadata updated with the zero-based
`chunk_index = i`; every other key reads back exactly as in the
caller's map, which the code only copies and never mutates. -/
theorem splitText_order_metadata {V : Type} (rawSplits : List String)
    (md : Option (Meta V)) :
    (splitText rawSplits md).length = rawSplits.length ∧
    (∀ i : Nat, (splitText rawSplits md)[i]? = (rawSplits[i]?).map fun c =>
      ({ content := c,
         metadata := dictSet (md.getD []) "chunk_index" (PyVal.intV i) } : RawChunk V)) ∧
    (∀ (i : Nat) (rc : RawChunk V), (splitText rawSplits md)[i]? = some rc →
      dictGet? rc.metadata "chunk_index" = some (PyVal.intV i) ∧
      ∀ k, k ≠ "chunk_index" →
        dictGet? rc.metadata k = dictGet? (md.getD []) k) := by
  have h2 : ∀ i, (splitText rawSplits md)[i]? = (rawSplits[i]?).map fun c =>
      ({ content := c,
         metadata := dictSet (md.getD []) "chunk_index" (PyVal.intV i) } : RawChunk V) := by
    intro i
    simpa using splitTextAux_getElem (md.getD []) rawSplits 0 i
  refine ⟨splitTextAux_length _ _ 0, h2, ?_⟩
  intro i rc h
  rw [h2 i] at h
  cases hr : rawSplits[i]? with
  | none => rw [hr] at h; simp at h
  | some c =>
    rw [hr] at h
    simp at h
    subst h
    exact ⟨dictGet_dictSet_same _ _ _,
      fun k hk => dictGet_dictSet_other _ _ _ _ hk⟩

/-- C7 witness: with an existing metadata key `"k"`, the second chunk's
metadata still reads `"k"` back unchanged and reads `chunk_index` as 1. -/
theorem splitText_order_metadata_witness :
    dictGet? (dictSet [("k", PyVal.other ())] "chunk_index" (PyVal.intV 1)) "k" =
      dictGet? [("k", PyVal.other ())] "k" ∧
    dictGet? (dictSet [("k", PyVal.other ())] "chunk_index" (PyVal.intV 1))
      "chunk_index" = some (PyVal.intV 1) := by
  have h := (splitText_order_metadata ["ab", "cd"]
    (some [("k", PyVal.other ())])).2.2 1
    ⟨"cd", dictSet [("k", PyVal.other ())] "chunk_index" (PyVal.intV 1)⟩
    (by decide)
  exact ⟨h.2 "k" (by decide), h.1⟩

/-- The value `textSplitterNew` accepts is exactly the splitter it was
given. -/
theorem textSplitterNew_spec (cs co : Int) (mk : Splitter) :
    ((∃ msg, textSplitterNew cs co mk = .error msg) ↔ co > cs) ∧
    (∀ s, textSplitterNew cs co mk = .ok s → s = mk) := by
  unfold textSplitterNew
  by_cases hgt : co > cs
  · simp [hgt]
  · simp only [hgt, if_false]
    constructor
    · simp [hgt]
    · intro s h
      cases h
      rfl

/-- C8, amended: constructing a `ChunkingEngine` rejects a config
exactly when `chunk_overlap > chunk_size` (strictly) — the `ValueError`
of the langchain `TextSplitter` base constructor, the only validation
on this path — and an accepted config's size and overlap reach the
splitter unchanged: no clamping ever happens, and the boundary case
`chunk_overlap = chunk_size` is accepted as-is (see the
counterexample). -/
theorem getSplitter_rejects_strict_overlap (config : ChunkConfig) :
    ((∃ msg, getSplitter config = .error msg) ↔
      config.chunk_overlap > config.chunk_size) ∧
    (∀ s, getSplitter config = .ok s →
      s.size = config.chunk_size ∧ s.overlap = config.chunk_overlap) := by
  have key : ∀ mk : Splitter, mk.size = config.chunk_size →
      mk.overlap = config.chunk_overlap →
      (((∃ msg, textSplitterNew config.chunk_size config.chunk_overlap mk =
          .error msg) ↔ config.chunk_overlap > config.chunk_size) ∧
       (∀ s, textSplitterNew config.chunk_size config.chunk_overlap mk = .ok s →
          s.size = config.chunk_size ∧ s.overlap = config.chunk_overlap)) := by
    intro mk hs ho
    refine ⟨(textSplitterNew_spec _ _ mk).1, ?_⟩
    intro s h
    rw [(textSplitterNew_spec _ _ mk).2 s h]
    exact ⟨hs, ho⟩
  unfold getSplitter
  split_ifs <;> exact key _ rfl rfl

/-- C8 witness: a config with `chunk_overlap = 300 > chunk_size = 100`
is rejected at construction. -/
theorem getSplitter_rejects_strict_overlap_witness :
    ∃ msg, getSplitter cfgOverlapBig = .error msg :=
  (getSplitter_rejects_strict_overlap cfgOverlapBig).1.mpr (by decide)

/-- C8 counterexample: the violating config
`chunk_overlap = chunk_size = 100` (`overlap ≥ size`) is neither
rejected nor clamped: construction succeeds and the resulting splitter
still has `overlap = size`, not `overlap < size`. -/
theorem getSplitter_accepts_overlap_eq_size :
    cfgOverlapEq.chunk_overlap ≥ cfgOverlapEq.chunk_size ∧
    getSplitter cfgOverlapEq =
      .ok (.recursiveCharacter 100 100 none) ∧
    ¬ (Splitter.recursiveCharacter 100 100 none).overlap <
        (Splitter.recursiveCharacter 100 100 none).size := by
  decide

/-- C9, amended: for a strategy name outside
`{recursive, character, token}`, `_get_splitter` falls back to a
`RecursiveCharacterTextSplitter` — but one built without the config's
custom separators, so the fallback coincides with
`strategy = "recursive"` exactly when no non-empty separators list is
configured (see the counterexample for the separators case). -/
theorem getSplitter_fallback_no_custom_separators (config : ChunkConfig)
    (h1 : config.strategy ≠ "recursive") (h2 : config.strategy ≠ "character")
    (h3 : config.strategy ≠ "token")
    (hsep : sepsTruthy config.separators = false) :
    getSplitter config = getSplitter { config with strategy := "recursive" } := by
  unfold getSplitter
  simp [h1, h2, h3, hsep]

/-- C9 witness: the unrecognized strategy `"semantic"` without
separators builds the same splitter as `"recursive"`. -/
theorem getSplitter_fallback_no_custom_separators_witness :
    getSplitter { strategy := "semantic", chunk_size := 10, chunk_overlap := 0 } =
      getSplitter { strategy := "recursive", chunk_size := 10, chunk_overlap := 0 } :=
  getSplitter_fallback_no_custom_separators
    { strategy := "semantic", chunk_size := 10, chunk_overlap := 0 }
    (by decide) (by decide) (by decide) (by decide)

/-- C9 counterexample: with the non-empty separators list `["X"]`, the
unrecognized strategy `"semantic"` builds a recursive splitter with the
library's default separators, while `strategy = "recursive"` builds one
carrying `["X"]`: the two engines are configured differently, refuting
behavioural identity for configs with a non-empty separators list. -/
theorem getSplitter_fallback_drops_separators :
    getSplitter cfgSem = .ok (.recursiveCharacter 10 0 none) ∧
    getSplitter { cfgSem with strategy := "recursive" } =
      .ok (.recursiveCharacter 10 0 (some ["X"])) ∧
    getSplitter cfgSem ≠ getSplitter { cfgSem with strategy := "recursive" } := by
  decide

end RagIndexing
